import Mathlib

/-!
Shallow embedding of the text-buffer and viewport core of the hecto editor
(src/editor/view.rs, src/editor/view/line.rs, src/editor/view/buffer.rs),
together with proofs of the specification claims about it.

Unicode segmentation and the East-Asian-width table live in external crates
(unicode-segmentation, unicode-width); they are modelled by carrying each
grapheme cluster as an explicit value holding its scalar values and its
intrinsic display width.  Machine integers (usize) are modelled as Nat;
the saturating subtractions of the source are Nat subtraction.
-/

namespace Hecto

/-! ## List helpers (embedding Vec operations used by the source) -/

/-- Concatenation of the images of a list under a list-valued function. -/
def catMap (f : α → List β) : List α → List β
  | [] => []
  | x :: xs => f x ++ catMap f xs

/-- Insert an element before index i; appends when i is at or beyond the end.
This matches the insertion loop of Line::insert, which pushes the new
character before the fragment at the given index and appends otherwise. -/
def listInsertAt : Nat → α → List α → List α
  | 0, a, l => a :: l
  | _ + 1, a, [] => [a]
  | n + 1, a, x :: xs => x :: listInsertAt n a xs

/-- Remove the element at index i (Vec::remove; callers guard the bound). -/
def listEraseAt : List α → Nat → List α
  | [], _ => []
  | _ :: xs, 0 => xs
  | x :: xs, n + 1 => x :: listEraseAt xs n

/-- Replace the element at index i, when it exists (Vec get_mut + write). -/
def listModifyAt (f : α → α) : Nat → List α → List α
  | _, [] => []
  | 0, x :: xs => f x :: xs
  | n + 1, x :: xs => x :: listModifyAt f n xs

/-- Element at index i (Vec::get / slice get). -/
def listGetAt : List α → Nat → Option α
  | [], _ => none
  | x :: _, 0 => some x
  | _ :: xs, n + 1 => listGetAt xs n

/-! ## Character classification (Rust char::is_control, char::is_whitespace) -/

/-- Rust char::is_control: the Unicode Cc category,
U+0000..U+001F and U+007F..U+009F. -/
def isControl (c : Char) : Bool :=
  c.toNat < 0x20 || (0x7f ≤ c.toNat && c.toNat ≤ 0x9f)

/-- Rust char::is_whitespace: the Unicode White_Space property. -/
def isRustWhitespace (c : Char) : Bool :=
  (0x9 ≤ c.toNat && c.toNat ≤ 0xD) || c.toNat = 0x20 || c.toNat = 0x85 ||
    c.toNat = 0xA0 || c.toNat = 0x1680 ||
    (0x2000 ≤ c.toNat && c.toNat ≤ 0x200A) ||
    c.toNat = 0x2028 || c.toNat = 0x2029 || c.toNat = 0x202F ||
    c.toNat = 0x205F || c.toNat = 0x3000

/-! ## Grapheme fragment model (src/editor/view/line.rs) -/

/-- One extended grapheme cluster, as produced by the external
unicode-segmentation crate, together with its intrinsic display width as
reported by the external unicode-width crate (UnicodeWidthStr::width). -/
structure Cluster where
  chars : List Char
  width : Nat
deriving DecidableEq

inductive GraphemeWidth where
  | Half
  | Full
deriving DecidableEq

/-- GraphemeWidth::width: Half is one cell, Full is two. -/
def GraphemeWidth.width : GraphemeWidth → Nat
  | .Half => 1
  | .Full => 2

/-- TextFragment from line.rs: a cluster, its rendered width class and an
optional single display replacement character. -/
structure TextFragment where
  grapheme : Cluster
  rendered_width : GraphemeWidth
  replacement : Option Char
deriving DecidableEq

/-- Line: an ordered sequence of fragments. -/
structure Line where
  fragments : List TextFragment
deriving DecidableEq

namespace Line

/-- Line::replacement_character.  The source matches on the cluster string:
a plain space maps to no replacement, a tab to a space, a nonzero-width
whitespace-only cluster to the open-box glyph, a zero-width cluster to a
white rectangle when it is a single control character and to a middle dot
otherwise, and anything else to no replacement. -/
def replacement_character (g : Cluster) : Option Char :=
  if g.chars = [' '] then none
  else if g.chars = ['\t'] then some ' '
  else if 0 < g.width ∧ g.chars.all isRustWhitespace then some '␣'
  else if g.width = 0 then
    match g.chars with
    | [c] => if isControl c then some '▯' else some '·'
    | _ => some '·'
  else none

/-- The per-cluster body of Line::str_to_fragments: with a replacement the
rendered width is forced to Half, otherwise intrinsic width 0 or 1 is Half
and anything larger is Full. -/
def toFragment (g : Cluster) : TextFragment :=
  match replacement_character g with
  | some r => { grapheme := g, rendered_width := .Half, replacement := some r }
  | none =>
    { grapheme := g
      rendered_width := if g.width ≤ 1 then .Half else .Full
      replacement := none }

/-- Line::str_to_fragments over the segmented cluster list. -/
def str_to_fragments (s : List Cluster) : List TextFragment :=
  s.map toFragment

/-- Line::from, applied to the already-segmented cluster list of the text. -/
def fromClusters (s : List Cluster) : Line :=
  ⟨str_to_fragments s⟩

/-- Line::len: the number of grapheme clusters. -/
def len (l : Line) : Nat :=
  l.fragments.length

/-- The line text rebuilt by the loop of Line::insert: the characters of
the clusters before the index, then the new character, then the characters
of the remaining clusters (so the character is appended when the index is
at or past the end). -/
def insertText (l : Line) (i : Nat) (ch : Char) : List Char :=
  catMap Cluster.chars ((l.fragments.map (·.grapheme)).take i) ++
    ch :: catMap Cluster.chars ((l.fragments.map (·.grapheme)).drop i)

/-- Line::insert.  The source rebuilds the whole line text with the new
character spliced in and re-runs str_to_fragments on it, which re-segments
the rebuilt string with the external unicode-segmentation crate.  As in
Buffer.load, that external segmentation (together with the external width
table) is the explicit `seg` parameter; it may merge the inserted character
with a neighbouring cluster, exactly as the crate does for combining
scalars. -/
def insert (seg : List Char → List Cluster) (l : Line) (i : Nat) (ch : Char) : Line :=
  ⟨str_to_fragments (seg (l.insertText i ch))⟩

/-- Line::delete: removes the cluster at the index when it exists and
reports whether a removal occurred. -/
def delete (l : Line) (i : Nat) : Line × Bool :=
  if i < l.fragments.length then (⟨listEraseAt l.fragments i⟩, true)
  else (l, false)

/-- Rendered text of a single fragment: the replacement when present,
otherwise the cluster's own characters. -/
def fragRender (f : TextFragment) : List Char :=
  match f.replacement with
  | some c => [c]
  | none => f.grapheme.chars

/-- The fold of Line::get.  The source scans fragments with a running
display position and try_folds an output string; early exit (ControlFlow
Break) is modelled by returning without recursing.  The running position
starts at 0 and advances by each fragment's rendered width. -/
def getAux : List TextFragment → Nat → Nat → Nat → List Char
  | [], _, _, _ => []
  | f :: fs, pos, rs, re =>
    let e := pos + f.rendered_width.width
    if e ≤ rs then getAux fs e rs re
    else if re ≤ pos then []
    else if pos < rs ∨ re < e then ['⋯']
    else fragRender f ++ getAux fs e rs re

/-- Line::get over the display-column range [rs, re). -/
def get (l : Line) (rs re : Nat) : List Char :=
  getAux l.fragments 0 rs re

/-- Line::position_of: accumulated rendered width of the first `grapheme`
fragments (iter().take(grapheme) sums widths). -/
def position_of (l : Line) (grapheme : Nat) : Nat :=
  (l.fragments.take grapheme).foldl (fun w f => w + f.rendered_width.width) 0

/-- A line whose fragments agree with re-classifying its own clusters.
Every Line the program builds (Line::from, insert, delete) satisfies this. -/
def WF (l : Line) : Prop :=
  l.fragments = str_to_fragments (l.fragments.map (·.grapheme))

instance (l : Line) : Decidable l.WF := by
  unfold WF; infer_instance

end Line

/-! ## Position and Size -/

/-- Modelled from the spec: Position lives in src/editor/position.rs, which
is not part of the provided sources; the spec describes it as a logical
`{ row: line index, col: grapheme index within that row }` address, and the
same struct doubles as the scroll offset and grid position. -/
structure Position where
  col : Nat
  row : Nat
deriving DecidableEq

/-- Size from src/editor/terminal.rs: the viewport dimensions. -/
structure Size where
  width : Nat
  height : Nat
deriving DecidableEq

/-! ## Buffer (src/editor/view/buffer.rs) -/

/-- Buffer: the ordered document of Lines. -/
structure Buffer where
  lines : List Line
deriving DecidableEq

namespace Buffer

/-- Buffer::default. -/
def default : Buffer := ⟨[]⟩

/-- Buffer::get_line. -/
def get_line (b : Buffer) (index : Nat) : Option Line :=
  listGetAt b.lines index

/-- Buffer::is_empty. -/
def is_empty (b : Buffer) : Bool :=
  b.lines.isEmpty

/-- Buffer::push, applied to the segmented clusters of the pushed text. -/
def push (b : Buffer) (s : List Cluster) : Buffer :=
  ⟨b.lines ++ [Line.fromClusters s]⟩

/-- Buffer::insert: pushes a new line built from the single-character
string when the row equals the line count, delegates to the addressed
line's insert when the row is in range (get_mut succeeds), and otherwise
changes nothing.  `seg` is the external segmentation used by Line::from and
Line::insert. -/
def insert (seg : List Char → List Cluster) (b : Buffer) (at_ : Position)
    (ch : Char) : Buffer :=
  if at_.row = b.lines.length then
    ⟨b.lines ++ [Line.fromClusters (seg [ch])]⟩
  else if at_.row < b.lines.length then
    ⟨listModifyAt (fun l => l.insert seg at_.col ch) at_.row b.lines⟩
  else b

/-- Buffer::delete: delegates to the addressed line's delete when the row is
in range, otherwise reports false. -/
def delete (b : Buffer) (at_ : Position) : Buffer × Bool :=
  match listGetAt b.lines at_.row with
  | some l =>
    let r := l.delete at_.col
    (⟨listModifyAt (fun _ => r.1) at_.row b.lines⟩, r.2)
  | none => (b, false)

/-- Buffer::num_lines. -/
def num_lines (b : Buffer) : Nat :=
  b.lines.length

/-- Buffer::line_len: the addressed line's grapheme count, or 0 when the row
is out of range. -/
def line_len (b : Buffer) (at_ : Nat) : Nat :=
  match listGetAt b.lines at_ with
  | some l => l.len
  | none => 0

/-- Buffer::grid_position_of: keeps the row and converts the grapheme column
to a display column through Line::position_of, or 0 when the row does not
exist. -/
def grid_position_of (b : Buffer) (location : Position) : Position :=
  let col :=
    match listGetAt b.lines location.row with
    | some l => l.position_of location.col
    | none => 0
  { col := col, row := location.row }

end Buffer

/-! ## Loading (Buffer::load, View::load)

The file read (std::fs::read_to_string) is external I/O; it is modelled by
its outcome, either an I/O error or the character contents of the file.
Grapheme segmentation of each line is the external crate, modelled as a
function parameter. -/

inductive IoError where
  | ioError
deriving DecidableEq

/-- One piece of str::split_inclusive on the newline character: the
accumulator collects the current piece in reverse. -/
def splitIncAux : List Char → List Char → List (List Char)
  | [], acc => if acc.isEmpty then [] else [acc.reverse]
  | c :: cs, acc =>
    if c = '\n' then (acc.reverse ++ ['\n']) :: splitIncAux cs []
    else splitIncAux cs (c :: acc)

/-- Strip one trailing line terminator, either a line feed or a carriage
return followed by a line feed (the map inside str::lines). -/
def stripLineEnding (s : List Char) : List Char :=
  match s.reverse with
  | '\n' :: '\r' :: rest => rest.reverse
  | '\n' :: rest => rest.reverse
  | _ => s

/-- Rust str::lines: split after each newline, then strip the terminator
from every piece. -/
def strLines (cs : List Char) : List (List Char) :=
  (splitIncAux cs []).map stripLineEnding

namespace Buffer

/-- Buffer::load: propagates a read failure, and otherwise builds one Line
per input line of the contents.  `seg` is the external grapheme
segmentation applied by Line::from to each line's text. -/
def load (seg : List Char → List Cluster) (read_result : Except IoError (List Char)) :
    Except IoError Buffer :=
  match read_result with
  | .error e => .error e
  | .ok contents => .ok ⟨(strLines contents).map (fun s => Line.fromClusters (seg s))⟩

end Buffer

/-! ## Viewport / cursor controller (src/editor/view.rs) -/

/-- Direction from src/editor/editorcommand.rs. -/
inductive Direction where
  | PageUp
  | PageDown
  | Home
  | End
  | Up
  | Down
  | Left
  | Right
deriving DecidableEq

/-- EditorCommand, with the variants View::handle_command matches on. -/
inductive EditorCommand where
  | Move (d : Direction)
  | Resize (s : Size)
  | Insert (ch : Char)
  | DeleteLeft
  | DeleteRight
  | Quit
deriving DecidableEq

/-- One emission to the external terminal writer during a render pass:
either a printed row or the welcome-message output (whose exact text comes
from build-time environment values outside this core). -/
inductive RenderOut where
  | printRow (at_ : Nat) (s : List Char)
  | welcome
deriving DecidableEq

/-- View: the buffer together with redraw flag, viewport size, cursor
position and scroll offset. -/
structure View where
  buffer : Buffer
  needs_redraw : Bool
  size : Size
  cursor_position : Position
  scroll_offset : Position
deriving DecidableEq

namespace View

/-- View::new. -/
def new (size : Size) : View :=
  { buffer := Buffer.default
    needs_redraw := true
    size := size
    cursor_position := { col := 0, row := 0 }
    scroll_offset := { col := 0, row := 0 } }

/-- View::update_cursor_position: the per-direction raw move followed by the
row clamp to the last line and the column clamp to the line length. -/
def update_cursor_position (v : View) (direction : Direction) : Position :=
  let row := v.cursor_position.row
  let col := v.cursor_position.col
  let rc : Nat × Nat :=
    match direction with
    | .Left => (row, col - 1)
    | .Right => (row, col + 1)
    | .Up => (row - 1, col)
    | .Down => (row + 1, col)
    | .Home => (row, 0)
    | .End => (row, v.buffer.line_len row)
    | .PageUp => (row - v.size.height, col)
    | .PageDown => (row + v.size.height, col)
  let row2 := min (v.buffer.num_lines - 1) rc.1
  let col2 := min (v.buffer.line_len row2) rc.2
  { col := col2, row := row2 }

/-- View::update_scroll_offset: the lazy-scrolling formula over the cursor's
grid position, the old offset and the given viewport size. -/
def update_scroll_offset (v : View) (size : Size) : Position :=
  let height := size.height
  let width := size.width
  let row := v.cursor_position.row
  let col := v.cursor_position.col
  let position := v.buffer.grid_position_of { col := col, row := row }
  let dy := max (min v.scroll_offset.row row) (row - (height - 1))
  let dx := max (min v.scroll_offset.col position.col) (position.col - (width - 1))
  { col := dx, row := dy }

/-- View::move_cursor: updates the cursor, then the scroll offset from the
new cursor, then marks the view for redraw. -/
def move_cursor (v : View) (direction : Direction) : View :=
  let v1 := { v with cursor_position := v.update_cursor_position direction }
  let v2 := { v1 with scroll_offset := v1.update_scroll_offset v1.size }
  { v2 with needs_redraw := true }

/-- View::resize: stores the new size, recomputes the scroll offset against
the unchanged cursor and marks the view for redraw. -/
def resize (v : View) (sz : Size) : View :=
  let v1 := { v with size := sz }
  { v1 with scroll_offset := v1.update_scroll_offset sz, needs_redraw := true }

/-- View::insert: inserts into the buffer at the cursor, moves the cursor
right when the addressed line's length grew, and marks for redraw. -/
def insert (seg : List Char → List Cluster) (v : View) (ch : Char) : View :=
  let at_ := v.cursor_position
  let old_line_length := v.buffer.line_len at_.row
  let v1 := { v with buffer := v.buffer.insert seg v.cursor_position ch }
  let v2 :=
    if old_line_length < v1.buffer.line_len at_.row then v1.move_cursor .Right
    else v1
  { v2 with needs_redraw := true }

/-- View::delete_left: nothing to delete at column 0; otherwise move left
and delete at the new cursor, marking for redraw only when a deletion
happened. -/
def delete_left (v : View) : View :=
  if v.cursor_position.col = 0 then v
  else
    let v1 := v.move_cursor .Left
    let r := v1.buffer.delete v1.cursor_position
    let v2 := { v1 with buffer := r.1 }
    if r.2 then { v2 with needs_redraw := true } else v2

/-- View::delete_right: delete at the cursor, marking for redraw only when
a deletion happened. -/
def delete_right (v : View) : View :=
  let r := v.buffer.delete v.cursor_position
  let v1 := { v with buffer := r.1 }
  if r.2 then { v1 with needs_redraw := true } else v1

/-- View::get_cursor_position: the cursor's grid position relative to the
scroll offset. -/
def get_cursor_position (v : View) : Position :=
  let absolute := v.buffer.grid_position_of v.cursor_position
  let offset := v.scroll_offset
  { col := absolute.col - offset.col, row := absolute.row - offset.row }

/-- View::load: replaces the buffer only when Buffer::load succeeded, and
marks for redraw either way. -/
def load (v : View) (seg : List Char → List Cluster)
    (read_result : Except IoError (List Char)) : View :=
  match Buffer.load seg read_result with
  | .ok buffer => { v with buffer := buffer, needs_redraw := true }
  | .error _ => { v with needs_redraw := true }

/-- View::render_buffer: one printed row per viewport line, each the line's
display slice for the scroll window, or a tilde placeholder past the end of
the document; clears the redraw flag. -/
def render_buffer (v : View) : View × List RenderOut :=
  let height := v.size.height
  let width := v.size.width
  let col := v.scroll_offset.col
  let row := v.scroll_offset.row
  let out := (List.range height).map (fun current =>
    match v.buffer.get_line (current + row) with
    | some line => RenderOut.printRow current (line.get col (col + width))
    | none => RenderOut.printRow current ['~'])
  ({ v with needs_redraw := false }, out)

/-- View::render: nothing at all when the redraw flag is clear; the welcome
message (which does not touch the flag) when the buffer is empty; otherwise
a buffer render pass. -/
def render (v : View) : View × List RenderOut :=
  if v.needs_redraw = false then (v, [])
  else if v.buffer.is_empty then (v, [RenderOut.welcome])
  else v.render_buffer

/-- View::handle_command. -/
def handle_command (seg : List Char → List Cluster) (v : View)
    (command : EditorCommand) : View :=
  match command with
  | .Move d => v.move_cursor d
  | .Resize s => v.resize s
  | .Insert ch => v.insert seg ch
  | .DeleteLeft => v.delete_left
  | .DeleteRight => v.delete_right
  | .Quit => v

end View

/-- Apply a sequence of editor commands in order. -/
def applyCommands (seg : List Char → List Cluster) (v : View) :
    List EditorCommand → View
  | [] => v
  | c :: cs => applyCommands seg (v.handle_command seg c) cs

/-- Single-codepoint-per-cluster segmentation, each cluster of width 1:
the behavior of the external segmenter and width table on plain ASCII
text.  Used by the witnesses. -/
def asciiSeg (cs : List Char) : List Cluster :=
  cs.map (fun c => ⟨[c], 1⟩)

/-- The scroll-offset invariant of the spec: the cursor's grid position lies
inside the viewport window determined by the scroll offset. -/
def cursorInView (v : View) : Prop :=
  let g := v.buffer.grid_position_of v.cursor_position
  v.scroll_offset.row ≤ g.row ∧ g.row < v.scroll_offset.row + v.size.height ∧
    v.scroll_offset.col ≤ g.col ∧ g.col < v.scroll_offset.col + v.size.width

instance (v : View) : Decidable (cursorInView v) := by
  unfold cursorInView; infer_instance

/-! ## Lemmas about the list helpers -/

theorem listGetAt_eq_none {l : List α} {i : Nat} (h : l.length ≤ i) :
    listGetAt l i = none := by
  induction l generalizing i with
  | nil => cases i <;> rfl
  | cons x xs ih =>
    cases i with
    | zero => simp at h
    | succ n => exact ih (by simpa using h)

theorem listGetAt_isSome {l : List α} {i : Nat} (h : i < l.length) :
    ∃ x, listGetAt l i = some x := by
  induction l generalizing i with
  | nil => simp at h
  | cons x xs ih =>
    cases i with
    | zero => exact ⟨x, rfl⟩
    | succ n => exact ih (by simpa using h)

theorem listGetAt_some_lt {l : List α} {i : Nat} {x : α}
    (h : listGetAt l i = some x) : i < l.length := by
  by_contra hc
  rw [listGetAt_eq_none (by omega)] at h
  exact Option.noConfusion h

theorem listGetAt_append_length (l : List α) (x : α) :
    listGetAt (l ++ [x]) l.length = some x := by
  induction l with
  | nil => rfl
  | cons y ys ih => simpa using ih

theorem listModifyAt_length (f : α → α) (i : Nat) (l : List α) :
    (listModifyAt f i l).length = l.length := by
  induction l generalizing i with
  | nil => cases i <;> rfl
  | cons x xs ih => cases i with
    | zero => rfl
    | succ n => simpa [listModifyAt] using ih n

theorem listGetAt_modifyAt_same {l : List α} {i : Nat} {x : α} (f : α → α)
    (h : listGetAt l i = some x) :
    listGetAt (listModifyAt f i l) i = some (f x) := by
  induction l generalizing i with
  | nil => cases i <;> exact Option.noConfusion h
  | cons y ys ih =>
    cases i with
    | zero => cases h; rfl
    | succ n => exact ih h

theorem listGetAt_modifyAt_ne (f : α → α) {i j : Nat} (l : List α) (h : j ≠ i) :
    listGetAt (listModifyAt f i l) j = listGetAt l j := by
  induction l generalizing i j with
  | nil => cases i <;> rfl
  | cons y ys ih =>
    cases i with
    | zero => cases j with
      | zero => exact absurd rfl h
      | succ m => rfl
    | succ n => cases j with
      | zero => rfl
      | succ m => exact ih (fun hc => h (by omega))

theorem listModifyAt_self {l : List α} {i : Nat} {x : α}
    (h : listGetAt l i = some x) : listModifyAt (fun _ => x) i l = l := by
  induction l generalizing i with
  | nil => cases i <;> exact Option.noConfusion h
  | cons y ys ih =>
    cases i with
    | zero => cases h; rfl
    | succ n => simpa [listModifyAt] using ih h

theorem listInsertAt_length (i : Nat) (a : α) (l : List α) :
    (listInsertAt i a l).length = l.length + 1 := by
  induction l generalizing i with
  | nil => cases i <;> rfl
  | cons x xs ih => cases i with
    | zero => rfl
    | succ n => simpa [listInsertAt] using ih n

theorem map_listInsertAt (f : α → β) (i : Nat) (a : α) (l : List α) :
    (listInsertAt i a l).map f = listInsertAt i (f a) (l.map f) := by
  induction l generalizing i with
  | nil => cases i <;> rfl
  | cons x xs ih => cases i with
    | zero => rfl
    | succ n => simpa [listInsertAt] using ih n

theorem listEraseAt_listInsertAt {i : Nat} (a : α) {l : List α}
    (h : i ≤ l.length) : listEraseAt (listInsertAt i a l) i = l := by
  induction l generalizing i with
  | nil => cases i with
    | zero => rfl
    | succ n => simp at h
  | cons x xs ih => cases i with
    | zero => rfl
    | succ n => simpa [listInsertAt, listEraseAt] using ih (by simpa using h)

theorem take_listEraseAt (l : List α) (i : Nat) :
    (listEraseAt l i).take i = l.take i := by
  induction l generalizing i with
  | nil => cases i <;> rfl
  | cons x xs ih => cases i with
    | zero => rfl
    | succ n => simpa [listEraseAt, List.take_succ_cons] using ih n

theorem take_of_le_length {l : List α} {i : Nat} (h : l.length ≤ i) :
    l.take i = l := by
  induction l generalizing i with
  | nil => simp
  | cons x xs ih => cases i with
    | zero => simp at h
    | succ n => simpa [List.take_succ_cons] using ih (by simpa using h)

theorem take_min_length (l : List α) (i : Nat) :
    l.take (min i l.length) = l.take i := by
  rcases Nat.le_total i l.length with h | h
  · rw [Nat.min_eq_left h]
  · rw [Nat.min_eq_right h, take_of_le_length h, take_of_le_length (Nat.le_refl _)]

/-! ## Width accumulation lemmas -/

/-- Total rendered width of a fragment list. -/
def widthSum (fs : List TextFragment) : Nat :=
  (fs.map (fun f => f.rendered_width.width)).sum

theorem foldl_add_width (fs : List TextFragment) (n : Nat) :
    fs.foldl (fun w f => w + f.rendered_width.width) n = n + widthSum fs := by
  induction fs generalizing n with
  | nil => simp [widthSum]
  | cons f fs ih => simp [widthSum, ih, List.sum_cons] at *; omega

theorem position_of_eq_widthSum (l : Line) (g : Nat) :
    l.position_of g = widthSum (l.fragments.take g) := by
  unfold Line.position_of
  rw [foldl_add_width, Nat.zero_add]

/-- The rendered width of any fragment is 1 or 2, never 0. -/
theorem fragment_width_pos (f : TextFragment) : 0 < f.rendered_width.width := by
  cases f.rendered_width <;> simp [GraphemeWidth.width]

/-! ## C10: totality of position_of and grid_position_of -/

/-- C10: Line::position_of is total for every grapheme index: it sums the
rendered widths of the first min(index, len) fragments, so past-the-end
indices yield the full rendered width; Buffer::grid_position_of is total
for every position, keeping the row, mapping a nonexistent row to column 0
and an existing row through position_of, never failing. -/
theorem claim_C10 (l : Line) (i : Nat) (b : Buffer) (p : Position) :
    l.position_of i =
      ((l.fragments.take (min i l.len)).map (fun f => f.rendered_width.width)).sum ∧
    (l.len ≤ i → l.position_of i = l.position_of l.len) ∧
    (b.grid_position_of p).row = p.row ∧
    (b.num_lines ≤ p.row → (b.grid_position_of p).col = 0) ∧
    (∀ ln, listGetAt b.lines p.row = some ln →
      (b.grid_position_of p).col = ln.position_of p.col) := by
  refine ⟨?_, ?_, rfl, ?_, ?_⟩
  · rw [position_of_eq_widthSum, widthSum, Line.len, take_min_length]
  · intro h
    rw [position_of_eq_widthSum, position_of_eq_widthSum, Line.len,
      take_of_le_length h, take_of_le_length (Nat.le_refl _)]
  · intro h
    unfold Buffer.grid_position_of
    rw [listGetAt_eq_none h]
  · intro ln h
    unfold Buffer.grid_position_of
    rw [h]

/-- C10 witness at a concrete two-fragment line and two-line buffer, probing
a past-the-end index and an out-of-range row. -/
theorem claim_C10_witness :
    (Line.fromClusters [⟨['a'], 1⟩, ⟨['👋'], 2⟩]).len ≤ 5 ∧
    (Line.fromClusters [⟨['a'], 1⟩, ⟨['👋'], 2⟩]).position_of 5 =
      (Line.fromClusters [⟨['a'], 1⟩, ⟨['👋'], 2⟩]).position_of
        (Line.fromClusters [⟨['a'], 1⟩, ⟨['👋'], 2⟩]).len ∧
    ((⟨[Line.fromClusters [⟨['a'], 1⟩]]⟩ : Buffer).num_lines ≤ 3 ∧
      ((⟨[Line.fromClusters [⟨['a'], 1⟩]]⟩ : Buffer).grid_position_of ⟨7, 3⟩).col = 0) :=
  ⟨by decide,
    (claim_C10 (Line.fromClusters [⟨['a'], 1⟩, ⟨['👋'], 2⟩]) 5
      ⟨[Line.fromClusters [⟨['a'], 1⟩]]⟩ ⟨7, 3⟩).2.1 (by decide),
    by decide,
    (claim_C10 (Line.fromClusters [⟨['a'], 1⟩, ⟨['👋'], 2⟩]) 5
      ⟨[Line.fromClusters [⟨['a'], 1⟩]]⟩ ⟨7, 3⟩).2.2.2.1 (by decide)⟩

/-! ## C7: Buffer::insert row cases -/

/-- C7: Buffer::insert appends a new single-character line when the row
equals num_lines, delegates to that line's insert when the row is in range
(other rows untouched, line count kept), and is a complete no-op when the
row is strictly beyond num_lines; the line count grows by at most one. -/
theorem claim_C7 (seg : List Char → List Cluster) (b : Buffer) (p : Position)
    (ch : Char) :
    (p.row = b.num_lines →
      (b.insert seg p ch).lines = b.lines ++ [Line.fromClusters (seg [ch])]) ∧
    (p.row < b.num_lines →
      (b.insert seg p ch).num_lines = b.num_lines ∧
      (∀ ln, b.get_line p.row = some ln →
        (b.insert seg p ch).get_line p.row = some (ln.insert seg p.col ch)) ∧
      (∀ r, r ≠ p.row → (b.insert seg p ch).get_line r = b.get_line r)) ∧
    (b.num_lines < p.row → b.insert seg p ch = b) ∧
    (b.insert seg p ch).num_lines ≤ b.num_lines + 1 := by
  unfold Buffer.insert Buffer.num_lines Buffer.get_line
  refine ⟨?_, ?_, ?_, ?_⟩
  · intro h; simp [h]
  · intro h
    rw [if_neg (by omega), if_pos h]
    refine ⟨listModifyAt_length _ _ _, ?_, ?_⟩
    · intro ln hln
      exact listGetAt_modifyAt_same _ hln
    · intro r hr
      exact listGetAt_modifyAt_ne _ _ hr
  · intro h
    rw [if_neg (by omega), if_neg (by omega)]
  · split_ifs with h1 h2
    · simp
    · rw [listModifyAt_length]; omega
    · omega

/-- C7 witness: inserting at the appending row and at a row past the end of
a one-line buffer. -/
theorem claim_C7_witness :
    ((1 : Nat) = (⟨[Line.fromClusters [⟨['a'], 1⟩]]⟩ : Buffer).num_lines ∧
      ((⟨[Line.fromClusters [⟨['a'], 1⟩]]⟩ : Buffer).insert asciiSeg ⟨0, 1⟩ 'B').lines =
        [Line.fromClusters [⟨['a'], 1⟩]] ++ [Line.fromClusters (asciiSeg ['B'])]) ∧
    ((⟨[Line.fromClusters [⟨['a'], 1⟩]]⟩ : Buffer).num_lines < 2 ∧
      (⟨[Line.fromClusters [⟨['a'], 1⟩]]⟩ : Buffer).insert asciiSeg ⟨0, 2⟩ 'B' =
        ⟨[Line.fromClusters [⟨['a'], 1⟩]]⟩) :=
  ⟨⟨by decide,
    (claim_C7 asciiSeg ⟨[Line.fromClusters [⟨['a'], 1⟩]]⟩ ⟨0, 1⟩ 'B').1 (by decide)⟩,
    by decide,
    (claim_C7 asciiSeg ⟨[Line.fromClusters [⟨['a'], 1⟩]]⟩ ⟨0, 2⟩ 'B').2.2.1 (by decide)⟩

/-! ## C4: cursor-move clamping -/

/-- The raw cursor move of the spec's direction table, stated from the
spec's words for comparison with the source's update_cursor_position. -/
def specRawMove (v : View) (d : Direction) : Nat × Nat :=
  let row := v.cursor_position.row
  let col := v.cursor_position.col
  match d with
  | .Left => (row, col - 1)
  | .Right => (row, col + 1)
  | .Up => (row - 1, col)
  | .Down => (row + 1, col)
  | .Home => (row, 0)
  | .End => (row, v.buffer.line_len row)
  | .PageUp => (row - v.size.height, col)
  | .PageDown => (row + v.size.height, col)

/-- The spec's clamp: row to min(row, num_lines − 1) (0 when the buffer is
empty, by saturating subtraction), then col to min(col, line_len(row)). -/
def specClamp (v : View) (rc : Nat × Nat) : Position :=
  let row := min rc.1 (v.buffer.num_lines - 1)
  let col := min rc.2 (v.buffer.line_len row)
  { col := col, row := row }

/-- C4: every cursor move is the raw direction-table move followed by the
row clamp and then the column clamp (the column is clamped to the line
length itself, not length − 1); with the row in bounds, Home yields column
0 on the same row and End yields column line_len(row) on the same row. -/
theorem claim_C4 (v : View) (d : Direction) :
    v.update_cursor_position d = specClamp v (specRawMove v d) ∧
    (v.buffer.num_lines = 0 → (v.update_cursor_position d).row = 0) ∧
    (v.cursor_position.row < v.buffer.num_lines →
      v.update_cursor_position .Home = ⟨0, v.cursor_position.row⟩ ∧
      v.update_cursor_position .End =
        ⟨v.buffer.line_len v.cursor_position.row, v.cursor_position.row⟩) := by
  have hmain : ∀ d0, v.update_cursor_position d0 = specClamp v (specRawMove v d0) := by
    intro d0
    unfold View.update_cursor_position specClamp specRawMove
    cases d0 <;> simp [Nat.min_comm]
  refine ⟨hmain d, ?_, ?_⟩
  · intro h
    rw [hmain d]
    show min (specRawMove v d).1 (v.buffer.num_lines - 1) = 0
    omega
  · intro h
    constructor
    · rw [hmain .Home]
      show (⟨min 0 _, min v.cursor_position.row (v.buffer.num_lines - 1)⟩ : Position) = _
      have hr : min v.cursor_position.row (v.buffer.num_lines - 1) =
          v.cursor_position.row := by omega
      rw [hr]
      simp
    · rw [hmain .End]
      have hr : min v.cursor_position.row (v.buffer.num_lines - 1) =
          v.cursor_position.row := by omega
      show (⟨min (v.buffer.line_len v.cursor_position.row)
          (v.buffer.line_len (min v.cursor_position.row (v.buffer.num_lines - 1))),
          min v.cursor_position.row (v.buffer.num_lines - 1)⟩ : Position) = _
      rw [hr]
      simp

/-- Concrete fixtures used by the witnesses. -/
def wLineAB : Line := Line.fromClusters [⟨['a'], 1⟩, ⟨['b'], 1⟩]

def wLineABC : Line := Line.fromClusters [⟨['a'], 1⟩, ⟨['b'], 1⟩, ⟨['c'], 1⟩]

def wViewAB : View := ⟨⟨[wLineAB]⟩, true, ⟨4, 3⟩, ⟨1, 0⟩, ⟨0, 0⟩⟩

def wViewABC : View := ⟨⟨[wLineABC]⟩, true, ⟨5, 3⟩, ⟨0, 0⟩, ⟨0, 0⟩⟩

/-- C4 witness at a one-line buffer with the cursor on the line: End goes
to the caret position past the last grapheme. -/
theorem claim_C4_witness :
    wViewAB.cursor_position.row < wViewAB.buffer.num_lines ∧
    wViewAB.update_cursor_position .End = ⟨2, 0⟩ :=
  ⟨by decide,
    by
      have h := ((claim_C4 wViewAB .End).2.2 (by decide)).2
      rw [h]; decide⟩

/-! ## C3: lazy scroll-offset recomputation -/

theorem grid_position_of_row (b : Buffer) (p : Position) :
    (b.grid_position_of p).row = p.row := rfl

/-- With the cursor grid position already inside the window, the
recomputed scroll offset is the old one. -/
theorem update_scroll_offset_lazy (v : View) (size : Size)
    (h1 : v.scroll_offset.row ≤ v.cursor_position.row)
    (h2 : v.cursor_position.row < v.scroll_offset.row + size.height)
    (h3 : v.scroll_offset.col ≤ (v.buffer.grid_position_of v.cursor_position).col)
    (h4 : (v.buffer.grid_position_of v.cursor_position).col <
      v.scroll_offset.col + size.width) :
    v.update_scroll_offset size = v.scroll_offset := by
  have heta : (⟨v.cursor_position.col, v.cursor_position.row⟩ : Position) =
      v.cursor_position := rfl
  have hoff : v.scroll_offset = ⟨v.scroll_offset.col, v.scroll_offset.row⟩ := rfl
  simp only [View.update_scroll_offset, heta]
  rw [hoff]
  simp only [Position.mk.injEq]
  constructor
  · omega
  · omega

/-- C3: after any cursor move the new scroll offset is computed from the
old offset, the new cursor grid position and the viewport by the
max-min formula (with saturating subtraction), and when the grid position
is already inside the old window the offset is unchanged. -/
theorem claim_C3 (v : View) (d : Direction) :
    ((v.move_cursor d).scroll_offset.row =
      max (min v.scroll_offset.row
          (v.buffer.grid_position_of (v.update_cursor_position d)).row)
        ((v.buffer.grid_position_of (v.update_cursor_position d)).row -
          (v.size.height - 1)) ∧
     (v.move_cursor d).scroll_offset.col =
      max (min v.scroll_offset.col
          (v.buffer.grid_position_of (v.update_cursor_position d)).col)
        ((v.buffer.grid_position_of (v.update_cursor_position d)).col -
          (v.size.width - 1))) ∧
    (v.scroll_offset.row ≤ (v.buffer.grid_position_of (v.update_cursor_position d)).row →
     (v.buffer.grid_position_of (v.update_cursor_position d)).row <
        v.scroll_offset.row + v.size.height →
     v.scroll_offset.col ≤ (v.buffer.grid_position_of (v.update_cursor_position d)).col →
     (v.buffer.grid_position_of (v.update_cursor_position d)).col <
        v.scroll_offset.col + v.size.width →
     (v.move_cursor d).scroll_offset = v.scroll_offset) := by
  constructor
  · exact ⟨rfl, rfl⟩
  · intro h1 h2 h3 h4
    exact update_scroll_offset_lazy
      { v with cursor_position := v.update_cursor_position d } v.size h1 h2 h3 h4

/-- C3 witness: moving right inside the window of a 5-wide viewport leaves
the scroll offset untouched. -/
theorem claim_C3_witness :
    (wViewABC.scroll_offset.row ≤
      (wViewABC.buffer.grid_position_of (wViewABC.update_cursor_position .Right)).row) ∧
    (wViewABC.move_cursor .Right).scroll_offset = wViewABC.scroll_offset :=
  ⟨by decide,
    (claim_C3 wViewABC .Right).2 (by decide) (by decide) (by decide) (by decide)⟩

/-! ## C2: insert followed by delete restores the line

Every Line the program ever holds satisfies Line.WF: Line::from and
Line::insert produce re-classified fragment lists, and Line::delete only
removes a fragment.  The closure lemmas below record this, so the WF
hypothesis of the claim covers exactly the reachable lines. -/

theorem toFragment_grapheme (g : Cluster) : (Line.toFragment g).grapheme = g := by
  unfold Line.toFragment
  cases Line.replacement_character g <;> rfl

theorem str_to_fragments_graphemes (s : List Cluster) :
    (Line.str_to_fragments s).map (·.grapheme) = s := by
  unfold Line.str_to_fragments
  rw [List.map_map]
  have : ((fun f : TextFragment => f.grapheme) ∘ Line.toFragment) = id := by
    funext g
    exact toFragment_grapheme g
  rw [this, List.map_id]

theorem WF_fromClusters (s : List Cluster) : (Line.fromClusters s).WF := by
  show Line.str_to_fragments s =
    Line.str_to_fragments ((Line.str_to_fragments s).map (·.grapheme))
  rw [str_to_fragments_graphemes]

theorem WF_insert (seg : List Char → List Cluster) (l : Line) (i : Nat)
    (ch : Char) : (l.insert seg i ch).WF :=
  WF_fromClusters _

theorem map_listEraseAt (f : α → β) (l : List α) (i : Nat) :
    (listEraseAt l i).map f = listEraseAt (l.map f) i := by
  induction l generalizing i with
  | nil => cases i <;> rfl
  | cons x xs ih => cases i with
    | zero => rfl
    | succ n => simpa [listEraseAt] using ih n

theorem WF_delete {l : Line} (hwf : l.WF) (i : Nat) : ((l.delete i).1).WF := by
  unfold Line.delete
  split_ifs with h
  · show listEraseAt l.fragments i =
      Line.str_to_fragments ((listEraseAt l.fragments i).map (·.grapheme))
    unfold Line.str_to_fragments
    rw [map_listEraseAt, map_listEraseAt]
    have hl : (l.fragments.map (·.grapheme)).map Line.toFragment = l.fragments := by
      have := hwf
      unfold Line.WF Line.str_to_fragments at this
      exact this.symm
    rw [hl]
  · exact hwf

/-- When the segmentation of the rebuilt line text is the original cluster
list with the character spliced in as its own cluster of some width (the
non-merging case), Line::insert inserts exactly one classified fragment. -/
theorem insert_fragments_of_seg {l : Line} {seg : List Char → List Cluster}
    {i : Nat} {ch : Char} {w : Nat} (hwf : l.WF)
    (hseg : seg (l.insertText i ch) =
      listInsertAt i ⟨[ch], w⟩ (l.fragments.map (·.grapheme))) :
    (l.insert seg i ch).fragments =
      listInsertAt i (Line.toFragment ⟨[ch], w⟩) l.fragments := by
  show Line.str_to_fragments (seg (l.insertText i ch)) = _
  rw [hseg]
  unfold Line.str_to_fragments
  rw [map_listInsertAt]
  have hl : (l.fragments.map (·.grapheme)).map Line.toFragment = l.fragments := by
    have := hwf
    unfold Line.WF Line.str_to_fragments at this
    exact this.symm
  rw [hl]

/-- The combining acute accent U+0301. -/
def combAcute : Char := Char.ofNat 0x301

/-- A segmentation with the documented behavior of the external
unicode-segmentation crate on the rebuilt string a-combining-acute-b: the
combining mark merges into an extended grapheme cluster with the preceding
letter (UAX 29), leaving two clusters; elsewhere one cluster per character. -/
def segMerge (cs : List Char) : List Cluster :=
  if cs = ['a', combAcute, 'b'] then [⟨['a', combAcute], 1⟩, ⟨['b'], 1⟩]
  else cs.map (fun c => ⟨[c], 1⟩)

/-- C2 counterexample: the claim quantifies over every character, but
inserting the combining acute accent at index 1 of the line ab rebuilds the
string a-combining-acute-b, whose re-segmentation merges the mark with the
letter a; the line still has two clusters, so delete(1) removes b and
leaves a-with-acute, not the original line, and the length differs too. -/
theorem claim_C2_cex :
    wLineAB.WF ∧ 1 < wLineAB.len ∧
    ((wLineAB.insert segMerge 1 combAcute).delete 1).1 ≠ wLineAB ∧
    ((wLineAB.insert segMerge 1 combAcute).delete 1).1.len ≠ wLineAB.len := by
  decide

/-- C2 (amended): on any (reachable, hence WF) line and in-bounds grapheme
index, for a character whose insertion re-segments the rebuilt line text
into the original clusters with the character spliced in as its own
single-character cluster (the non-merging case), insert followed by delete
at the same index restores the original line: the same fragment sequence,
hence the same length and the same get and position_of results, and the
delete reports success. -/
theorem claim_C2 (seg : List Char → List Cluster) (l : Line) (i : Nat)
    (ch : Char) (w : Nat) (hwf : l.WF) (hi : i < l.len)
    (hseg : seg (l.insertText i ch) =
      listInsertAt i ⟨[ch], w⟩ (l.fragments.map (·.grapheme))) :
    ((l.insert seg i ch).delete i).1 = l ∧
    ((l.insert seg i ch).delete i).2 = true ∧
    ((l.insert seg i ch).delete i).1.len = l.len ∧
    (∀ rs re, ((l.insert seg i ch).delete i).1.get rs re = l.get rs re) ∧
    (∀ j, ((l.insert seg i ch).delete i).1.position_of j = l.position_of j) := by
  have hfr := insert_fragments_of_seg hwf hseg
  have hlen : (l.insert seg i ch).fragments.length = l.fragments.length + 1 := by
    rw [hfr, listInsertAt_length]
  have hlt : i < (l.insert seg i ch).fragments.length := by
    rw [hlen]
    exact Nat.lt_succ_of_lt hi
  have h1 : ((l.insert seg i ch).delete i).1 = l := by
    unfold Line.delete
    rw [if_pos hlt]
    show (⟨listEraseAt (l.insert seg i ch).fragments i⟩ : Line) = l
    rw [hfr, listEraseAt_listInsertAt _ (Nat.le_of_lt hi)]
  have h2 : ((l.insert seg i ch).delete i).2 = true := by
    unfold Line.delete
    rw [if_pos hlt]
  exact ⟨h1, h2, by rw [h1], fun rs re => by rw [h1], fun j => by rw [h1]⟩

/-- C2 witness: inserting an x in the middle of the two-grapheme line under
the plain one-cluster-per-character segmentation and deleting it again
restores the line. -/
theorem claim_C2_witness :
    wLineAB.WF ∧ 1 < wLineAB.len ∧
    asciiSeg (wLineAB.insertText 1 'x') =
      listInsertAt 1 ⟨['x'], 1⟩ (wLineAB.fragments.map (·.grapheme)) ∧
    ((wLineAB.insert asciiSeg 1 'x').delete 1).1 = wLineAB :=
  ⟨by decide, by decide, by decide,
    (claim_C2 asciiSeg wLineAB 1 'x' 1 (by decide) (by decide) (by decide)).1⟩

/-! ## C5: full-range rendering reconstructs the text -/

theorem widthSum_cons (f : TextFragment) (fs : List TextFragment) :
    widthSum (f :: fs) = f.rendered_width.width + widthSum fs := by
  simp [widthSum]

/-- Over a range that starts at 0 and covers the whole accumulated width,
the rendering walk emits every fragment. -/
theorem getAux_full (fs : List TextFragment) (pos re : Nat)
    (h : pos + widthSum fs ≤ re) :
    Line.getAux fs pos 0 re = catMap Line.fragRender fs := by
  induction fs generalizing pos with
  | nil => rfl
  | cons f fs ih =>
    have hw := fragment_width_pos f
    rw [widthSum_cons] at h
    have heq : Line.getAux (f :: fs) pos 0 re =
        if pos + f.rendered_width.width ≤ 0 then
          Line.getAux fs (pos + f.rendered_width.width) 0 re
        else if re ≤ pos then []
        else if pos < 0 ∨ re < pos + f.rendered_width.width then ['⋯']
        else Line.fragRender f ++ Line.getAux fs (pos + f.rendered_width.width) 0 re :=
      rfl
    rw [heq, if_neg (by omega), if_neg (by omega), if_neg (by omega)]
    show _ = Line.fragRender f ++ catMap Line.fragRender fs
    rw [ih _ (by omega)]

theorem fragRender_toFragment_of_none {g : Cluster}
    (h : Line.replacement_character g = none) :
    Line.fragRender (Line.toFragment g) = g.chars := by
  unfold Line.toFragment
  rw [h]
  rfl

theorem catMap_fragRender (t : List Cluster)
    (h : ∀ g ∈ t, Line.replacement_character g = none) :
    catMap Line.fragRender (Line.str_to_fragments t) = catMap Cluster.chars t := by
  induction t with
  | nil => rfl
  | cons g gs ih =>
    show Line.fragRender (Line.toFragment g) ++ _ = g.chars ++ _
    rw [fragRender_toFragment_of_none (h g (List.mem_cons_self g gs))]
    have hgs := ih (fun x hx => h x (List.mem_cons_of_mem _ hx))
    unfold Line.str_to_fragments at hgs
    rw [hgs]

/-- The NO-BREAK SPACE cluster: intrinsic width 1, not zero-width, and not
a combining character (its Unicode category is Zs, a space separator). -/
def nbspCluster : Cluster := ⟨[Char.ofNat 0xA0], 1⟩

/-- C5 counterexample: the text consisting of the single cluster U+00A0
NO-BREAK SPACE contains no zero-width and no combining character, yet the
full-range render replaces it by the open-box glyph instead of
reconstructing the text, so the claim fails as stated. -/
theorem claim_C5_cex :
    nbspCluster.width ≠ 0 ∧
    (Line.fromClusters [nbspCluster]).get 0
        ((Line.fromClusters [nbspCluster]).position_of
          (Line.fromClusters [nbspCluster]).len) ≠
      catMap Cluster.chars [nbspCluster] := by
  decide

/-- C5 (amended): for every text whose clusters all have nonzero intrinsic
width and receive no display replacement (which additionally excludes tabs
and non-space whitespace clusters such as U+00A0), the full-range render
get(0..position_of(len)) reconstructs the text exactly. -/
theorem claim_C5 (t : List Cluster)
    (h : ∀ g ∈ t, g.width ≠ 0 ∧ Line.replacement_character g = none) :
    (Line.fromClusters t).get 0
        ((Line.fromClusters t).position_of (Line.fromClusters t).len) =
      catMap Cluster.chars t := by
  have hpos : (Line.fromClusters t).position_of (Line.fromClusters t).len =
      widthSum (Line.fromClusters t).fragments := by
    rw [position_of_eq_widthSum, Line.len, take_of_le_length (Nat.le_refl _)]
  unfold Line.get
  rw [hpos, getAux_full _ 0 _ (by omega)]
  exact catMap_fragRender t (fun g hg => (h g hg).2)

/-- C5 witness on the plain two-character text ab. -/
theorem claim_C5_witness :
    (∀ g ∈ [(⟨['a'], 1⟩ : Cluster), ⟨['b'], 1⟩],
      g.width ≠ 0 ∧ Line.replacement_character g = none) ∧
    (Line.fromClusters [⟨['a'], 1⟩, ⟨['b'], 1⟩]).get 0
        ((Line.fromClusters [⟨['a'], 1⟩, ⟨['b'], 1⟩]).position_of
          (Line.fromClusters [⟨['a'], 1⟩, ⟨['b'], 1⟩]).len) =
      catMap Cluster.chars [⟨['a'], 1⟩, ⟨['b'], 1⟩] :=
  ⟨by decide, claim_C5 [⟨['a'], 1⟩, ⟨['b'], 1⟩] (by decide)⟩

/-! ## C8: Buffer::load error handling and all-or-nothing View::load -/

/-- C8: Buffer::load yields an I/O error exactly when the read failed (it
is a total function of the read outcome, so it cannot panic); on a failed
read View::load leaves the prior buffer completely unchanged, touching
nothing but the redraw flag; on a successful read the buffer is wholly
replaced by one line per input line with the terminators stripped. -/
theorem claim_C8 (seg : List Char → List Cluster)
    (r : Except IoError (List Char)) (v : View) :
    ((∃ e, Buffer.load seg r = .error e) ↔ (∃ e, r = .error e)) ∧
    (∀ e, r = .error e →
      (v.load seg r).buffer = v.buffer ∧
      v.load seg r = { v with needs_redraw := true }) ∧
    (∀ s, r = .ok s →
      Buffer.load seg r =
        .ok ⟨(strLines s).map (fun cs => Line.fromClusters (seg cs))⟩ ∧
      (v.load seg r).buffer =
        ⟨(strLines s).map (fun cs => Line.fromClusters (seg cs))⟩) := by
  refine ⟨?_, ?_, ?_⟩
  · cases r with
    | error e => exact ⟨fun _ => ⟨e, rfl⟩, fun _ => ⟨e, rfl⟩⟩
    | ok s =>
      constructor
      · rintro ⟨e, he⟩
        exact Except.noConfusion he
      · rintro ⟨e, he⟩
        exact Except.noConfusion he
  · rintro e rfl
    exact ⟨rfl, rfl⟩
  · rintro s rfl
    exact ⟨rfl, rfl⟩

/-- C8 witness: a failed read propagates the error and leaves the prior
buffer intact; a successful two-line read replaces it wholesale. -/
theorem claim_C8_witness :
    ((Except.error .ioError : Except IoError (List Char)) = .error .ioError) ∧
    (wViewAB.load (fun cs => cs.map (fun c => ⟨[c], 1⟩))
      (.error .ioError)).buffer = wViewAB.buffer ∧
    ((Except.ok ['a', '\n', 'b'] : Except IoError (List Char)) = .ok ['a', '\n', 'b']) ∧
    (wViewAB.load (fun cs => cs.map (fun c => ⟨[c], 1⟩))
        (.ok ['a', '\n', 'b'])).buffer =
      ⟨(strLines ['a', '\n', 'b']).map
        (fun cs => Line.fromClusters (cs.map (fun c => ⟨[c], 1⟩)))⟩ :=
  ⟨rfl,
    ((claim_C8 (fun cs => cs.map (fun c => ⟨[c], 1⟩)) (.error .ioError) wViewAB).2.1
      .ioError rfl).1,
    rfl,
    ((claim_C8 (fun cs => cs.map (fun c => ⟨[c], 1⟩)) (.ok ['a', '\n', 'b']) wViewAB).2.2
      ['a', '\n', 'b'] rfl).2⟩

/-! ## C9: the needs_redraw protocol -/

theorem buffer_delete_eq (b : Buffer) (p : Position) :
    b.delete p =
      match listGetAt b.lines p.row with
      | some l =>
        (⟨listModifyAt (fun _ => (l.delete p.col).1) p.row b.lines⟩,
          (l.delete p.col).2)
      | none => (b, false) := rfl

theorem buffer_delete_false {b : Buffer} {p : Position}
    (h : (b.delete p).2 = false) : (b.delete p).1 = b := by
  rw [buffer_delete_eq] at h ⊢
  cases hg : listGetAt b.lines p.row with
  | none => rfl
  | some l =>
    rw [hg] at h
    show (⟨listModifyAt (fun _ => (l.delete p.col).1) p.row b.lines⟩ : Buffer) = b
    have h2 : (l.delete p.col).2 = false := h
    unfold Line.delete at h2 ⊢
    split_ifs at h2 ⊢ with hc
    show (⟨listModifyAt (fun _ => l) p.row b.lines⟩ : Buffer) = b
    rw [listModifyAt_self hg]

/-- An empty view used for the C9 counterexample: a fresh View has an empty
buffer and a set redraw flag. -/
def c9EmptyView : View := View.new ⟨3, 2⟩

/-- A view with the cursor at the end of its only line and a clear redraw
flag, used for the C9 counterexample. -/
def c9EolView : View := ⟨⟨[wLineAB]⟩, false, ⟨4, 3⟩, ⟨2, 0⟩, ⟨0, 0⟩⟩

/-- A view whose cursor column lies beyond the line end (reachable, since
View::load swaps the buffer without resetting the cursor), with a clear
redraw flag: its delete_left moves the cursor but fails to delete. -/
def c9StaleView : View := ⟨⟨[wLineAB]⟩, false, ⟨4, 3⟩, ⟨3, 0⟩, ⟨0, 0⟩⟩

/-- With a nonzero cursor column, View::delete_left is View::delete_right
after the leftwards cursor move. -/
theorem delete_left_eq (v : View) (hc : v.cursor_position.col ≠ 0) :
    v.delete_left = (v.move_cursor .Left).delete_right := by
  unfold View.delete_left View.delete_right
  rw [if_neg hc]

/-- C9 counterexample: on an empty buffer the render pass emits the welcome
message yet leaves needs_redraw set (the claim says the flag is cleared
after every render pass), and delete_right at the end of a line leaves the
flag clear (the claim says every delete_right sets it). -/
theorem claim_C9_cex :
    (c9EmptyView.needs_redraw = true ∧ c9EmptyView.render.2 ≠ [] ∧
      c9EmptyView.render.1.needs_redraw = true) ∧
    (c9EolView.needs_redraw = false ∧
      c9EolView.delete_right.needs_redraw = false) := by
  decide

/-- A view whose redraw flag is already set keeps it set through
delete_right, whether or not the delete succeeds. -/
theorem delete_right_flag {v : View} (h : v.needs_redraw = true) :
    v.delete_right.needs_redraw = true := by
  show (if (v.buffer.delete v.cursor_position).2 then
      { ({ v with buffer := (v.buffer.delete v.cursor_position).1 } : View) with
          needs_redraw := true }
    else
      { v with buffer := (v.buffer.delete v.cursor_position).1 }).needs_redraw = true
  split_ifs
  · rfl
  · exact h

/-- C9 (amended): needs_redraw is set by every insert, cursor move and
resize; delete_right sets it when it deletes and changes nothing at all
otherwise; delete_left at column 0 changes nothing, and otherwise always
sets the flag through its internal cursor move, even when the subsequent
delete fails; render performs no output and changes nothing when the flag
is clear; a render pass over a non-empty buffer clears the flag, while the
empty-buffer welcome pass emits its message and leaves the view (including
the flag) unchanged. -/
theorem claim_C9 (seg : List Char → List Cluster) (v : View) (ch : Char)
    (d : Direction) (s : Size) :
    (v.insert seg ch).needs_redraw = true ∧
    (v.move_cursor d).needs_redraw = true ∧
    (v.resize s).needs_redraw = true ∧
    ((v.buffer.delete v.cursor_position).2 = true →
      v.delete_right.needs_redraw = true) ∧
    ((v.buffer.delete v.cursor_position).2 = false → v.delete_right = v) ∧
    (v.cursor_position.col = 0 → v.delete_left = v) ∧
    (v.cursor_position.col ≠ 0 → v.delete_left.needs_redraw = true) ∧
    (v.needs_redraw = false → v.render = (v, [])) ∧
    (v.needs_redraw = true → v.buffer.is_empty = false →
      (v.render).1.needs_redraw = false) ∧
    (v.needs_redraw = true → v.buffer.is_empty = true →
      v.render = (v, [RenderOut.welcome])) := by
  refine ⟨rfl, rfl, rfl, ?_, ?_, ?_, ?_, ?_, ?_, ?_⟩
  · intro h
    unfold View.delete_right
    simp only [h]
    rfl
  · intro h
    unfold View.delete_right
    simp only [h, buffer_delete_false h]
    rfl
  · intro h
    unfold View.delete_left
    rw [if_pos h]
  · intro h
    rw [delete_left_eq v h]
    exact delete_right_flag rfl
  · intro h
    unfold View.render
    rw [if_pos h]
  · intro h hne
    unfold View.render
    rw [if_neg (by simp [h]), if_neg (by simp [hne])]
    rfl
  · intro h he
    unfold View.render
    rw [if_neg (by simp [h]), if_pos he]

/-- C9 witness: a successful delete_right sets the flag; delete_left away
from column 0 sets the flag even though its delete fails (the cursor sits
past the line end, as a buffer swap by load can leave it); a clear flag
makes render a no-op. -/
theorem claim_C9_witness :
    ((wViewAB.buffer.delete wViewAB.cursor_position).2 = true ∧
      wViewAB.delete_right.needs_redraw = true) ∧
    (c9StaleView.cursor_position.col ≠ 0 ∧
      ((c9StaleView.move_cursor .Left).buffer.delete
        (c9StaleView.move_cursor .Left).cursor_position).2 = false ∧
      c9StaleView.delete_left.needs_redraw = true) ∧
    (c9EolView.needs_redraw = false ∧ c9EolView.render = (c9EolView, [])) :=
  ⟨⟨by decide,
    (claim_C9 asciiSeg wViewAB 'x' .Right ⟨1, 1⟩).2.2.2.1 (by decide)⟩,
    ⟨by decide, by decide,
      (claim_C9 asciiSeg c9StaleView 'x' .Right ⟨1, 1⟩).2.2.2.2.2.2.1 (by decide)⟩,
    ⟨rfl, (claim_C9 asciiSeg c9EolView 'x' .Right ⟨1, 1⟩).2.2.2.2.2.2.2.1 rfl⟩⟩

/-! ## C6: the clipping walk of Line::get -/

/-- Display interval [start, end) of each fragment of a list, walking left
to right from a starting position (the scan of Line::get). -/
def fragSpans : List TextFragment → Nat → List (Nat × Nat × TextFragment)
  | [], _ => []
  | f :: fs, pos =>
    (pos, pos + f.rendered_width.width, f) ::
      fragSpans fs (pos + f.rendered_width.width)

/-- A fragment interval only partially inside [rs, re): it overlaps the
range without being contained in it. -/
def partialIn (s : Nat × Nat × TextFragment) (rs re : Nat) : Prop :=
  rs < s.2.1 ∧ s.1 < re ∧ (s.1 < rs ∨ re < s.2.1)

/-- Whether a positioned fragment is fully inside the display range. -/
def insideRange (rs re : Nat) (s : Nat × Nat × TextFragment) : Bool :=
  decide (rs ≤ s.1 ∧ s.2.1 ≤ re)

/-- The walk over positioned fragments as the claim words it: skip the
fragments ending at or before the range start, emit the maximal run of
fragments fully inside the range, then look at the first remaining
fragment - absent, or starting at or past the range end, the output ends
there; a partially-inside fragment contributes a single ellipsis and ends
the output. -/
def spansTail (rest : List (Nat × Nat × TextFragment)) (rs re : Nat) : List Char :=
  catMap (fun s => Line.fragRender s.2.2) (rest.takeWhile (insideRange rs re)) ++
    (match rest.dropWhile (insideRange rs re) with
     | [] => []
     | s :: _ => if re ≤ s.1 then [] else ['⋯'])

/-- The reference rendering: skip phase, then the emit/stop walk. -/
def getSpec (l : Line) (rs re : Nat) : List Char :=
  spansTail ((fragSpans l.fragments 0).dropWhile (fun s => decide (s.2.1 ≤ rs))) rs re

theorem fragSpans_ends {fs : List TextFragment} {p : Nat} :
    ∀ s ∈ fragSpans fs p, s.2.1 = s.1 + s.2.2.rendered_width.width := by
  induction fs generalizing p with
  | nil => intro s hs; exact absurd hs (List.not_mem_nil s)
  | cons f fs ih =>
    intro s hs
    rcases List.mem_cons.1 hs with h | h
    · rw [h]
    · exact ih s h

theorem fragSpans_start_le {fs : List TextFragment} {p : Nat} :
    ∀ s ∈ fragSpans fs p, p ≤ s.1 := by
  induction fs generalizing p with
  | nil => intro s hs; exact absurd hs (List.not_mem_nil s)
  | cons f fs ih =>
    intro s hs
    rcases List.mem_cons.1 hs with h | h
    · rw [h]
    · have := ih s h
      have hw := fragment_width_pos f
      omega

theorem dropWhile_fragSpans_of_lt {rs : Nat} (fs : List TextFragment) (p : Nat)
    (h : rs < p) :
    (fragSpans fs p).dropWhile (fun s => decide (s.2.1 ≤ rs)) = fragSpans fs p := by
  cases fs with
  | nil => rfl
  | cons f fs =>
    have hw := fragment_width_pos f
    exact List.dropWhile_cons_of_neg (by simp; omega)

/-- The fold of Line::get agrees with the phased reference walk. -/
theorem getAux_eq_spansTail (rs re : Nat) (fs : List TextFragment) :
    ∀ pos, Line.getAux fs pos rs re =
      spansTail ((fragSpans fs pos).dropWhile (fun s => decide (s.2.1 ≤ rs))) rs re := by
  induction fs with
  | nil => intro pos; rfl
  | cons f fs ih =>
    intro pos
    have hw := fragment_width_pos f
    have hget : Line.getAux (f :: fs) pos rs re =
        if pos + f.rendered_width.width ≤ rs then
          Line.getAux fs (pos + f.rendered_width.width) rs re
        else if re ≤ pos then []
        else if pos < rs ∨ re < pos + f.rendered_width.width then ['⋯']
        else Line.fragRender f ++
          Line.getAux fs (pos + f.rendered_width.width) rs re := rfl
    have hspans : fragSpans (f :: fs) pos =
        (pos, pos + f.rendered_width.width, f) ::
          fragSpans fs (pos + f.rendered_width.width) := rfl
    rw [hget, hspans]
    by_cases h1 : pos + f.rendered_width.width ≤ rs
    · rw [if_pos h1, ih, List.dropWhile_cons_of_pos (by simpa using h1)]
    · rw [if_neg h1, List.dropWhile_cons_of_neg (by simpa using h1)]
      by_cases h2 : re ≤ pos
      · rw [if_pos h2]
        unfold spansTail
        rw [List.takeWhile_cons_of_neg (by simp [insideRange]; omega),
          List.dropWhile_cons_of_neg (by simp [insideRange]; omega)]
        show _ = [] ++ (if re ≤ pos then [] else _)
        rw [if_pos h2]
        rfl
      · rw [if_neg h2]
        by_cases h3 : pos < rs ∨ re < pos + f.rendered_width.width
        · rw [if_pos h3]
          unfold spansTail
          rw [List.takeWhile_cons_of_neg (by simp [insideRange]; omega),
            List.dropWhile_cons_of_neg (by simp [insideRange]; omega)]
          show _ = [] ++ (if re ≤ pos then [] else ['⋯'])
          rw [if_neg h2]
          rfl
        · rw [if_neg h3]
          rw [ih, dropWhile_fragSpans_of_lt fs _ (by omega)]
          unfold spansTail
          rw [List.takeWhile_cons_of_pos (by simp [insideRange]; omega),
            List.dropWhile_cons_of_pos (by simp [insideRange]; omega)]
          show Line.fragRender f ++ _ = Line.fragRender f ++ _ ++ _
          rw [List.append_assoc]

/-- C6: Line::get walks fragments left to right, skipping those ending at
or before the range start, emitting the run fully inside the range, and
stopping at the first fragment at or past the range end or at a
partially-inside fragment, which yields exactly one ellipsis; a Half-width
fragment can never be partially inside a range, so only Full-width
fragments produce the ellipsis. -/
theorem claim_C6 (l : Line) (rs re : Nat) (s : Nat × Nat × TextFragment)
    (hs : s ∈ fragSpans l.fragments 0) (hhalf : s.2.2.rendered_width = .Half) :
    l.get rs re = getSpec l rs re ∧ ¬ partialIn s rs re := by
  constructor
  · exact getAux_eq_spansTail rs re l.fragments 0
  · have he := fragSpans_ends s hs
    rw [hhalf] at he
    unfold partialIn
    simp only [GraphemeWidth.width] at he
    omega

/-- C6 witness: a range splitting the wide wave grapheme renders as the
letter a followed by a single ellipsis, and the Half-width first fragment
is not partially inside the range. -/
theorem claim_C6_witness :
    ((0, 1, Line.toFragment ⟨['a'], 1⟩) ∈
        fragSpans (Line.fromClusters [⟨['a'], 1⟩, ⟨['👋'], 2⟩, ⟨['b'], 1⟩]).fragments 0 ∧
      (Line.toFragment (⟨['a'], 1⟩ : Cluster)).rendered_width = .Half) ∧
    (Line.fromClusters [⟨['a'], 1⟩, ⟨['👋'], 2⟩, ⟨['b'], 1⟩]).get 0 2 =
      getSpec (Line.fromClusters [⟨['a'], 1⟩, ⟨['👋'], 2⟩, ⟨['b'], 1⟩]) 0 2 ∧
    ¬ partialIn (0, 1, Line.toFragment ⟨['a'], 1⟩) 0 2 :=
  ⟨⟨by decide, by decide⟩,
    (claim_C6 (Line.fromClusters [⟨['a'], 1⟩, ⟨['👋'], 2⟩, ⟨['b'], 1⟩]) 0 2
      (0, 1, Line.toFragment ⟨['a'], 1⟩) (by decide) (by decide)).1,
    (claim_C6 (Line.fromClusters [⟨['a'], 1⟩, ⟨['👋'], 2⟩, ⟨['b'], 1⟩]) 0 2
      (0, 1, Line.toFragment ⟨['a'], 1⟩) (by decide) (by decide)).2⟩

/-! ## C1: the cursor-in-view invariant over command sequences -/

/-- The scroll-offset recomputation puts the cursor grid position inside
the window, for any positive viewport size and regardless of the previous
offset. -/
theorem update_scroll_offset_establishes (v : View) (size : Size)
    (hw : 0 < size.width) (hh : 0 < size.height) :
    (v.update_scroll_offset size).row ≤ v.cursor_position.row ∧
    v.cursor_position.row < (v.update_scroll_offset size).row + size.height ∧
    (v.update_scroll_offset size).col ≤
      (v.buffer.grid_position_of v.cursor_position).col ∧
    (v.buffer.grid_position_of v.cursor_position).col <
      (v.update_scroll_offset size).col + size.width := by
  have heta : (⟨v.cursor_position.col, v.cursor_position.row⟩ : Position) =
      v.cursor_position := rfl
  simp only [View.update_scroll_offset, heta]
  refine ⟨?_, ?_, ?_, ?_⟩ <;> omega

theorem cursorInView_set_flag (v : View) (b : Bool) (h : cursorInView v) :
    cursorInView { v with needs_redraw := b } :=
  h

theorem cursorInView_move (v : View) (d : Direction)
    (hw : 0 < v.size.width) (hh : 0 < v.size.height) :
    cursorInView (v.move_cursor d) := by
  have h := update_scroll_offset_establishes
    { v with cursor_position := v.update_cursor_position d } v.size hw hh
  exact ⟨h.1, h.2.1, h.2.2.1, h.2.2.2⟩

theorem cursorInView_resize (v : View) (s : Size)
    (hw : 0 < s.width) (hh : 0 < s.height) :
    cursorInView (v.resize s) := by
  have h := update_scroll_offset_establishes { v with size := s } s hw hh
  exact ⟨h.1, h.2.1, h.2.2.1, h.2.2.2⟩

theorem insert_eq (seg : List Char → List Cluster) (v : View) (ch : Char) :
    v.insert seg ch =
      { (if v.buffer.line_len v.cursor_position.row <
            (v.buffer.insert seg v.cursor_position ch).line_len
              v.cursor_position.row
         then ({ v with buffer := v.buffer.insert seg v.cursor_position ch } :
            View).move_cursor .Right
         else { v with buffer := v.buffer.insert seg v.cursor_position ch }) with
        needs_redraw := true } :=
  rfl

/-- The condition on one insert under which the program keeps the cursor in
view: the re-segmentation either grows the addressed line's cluster count
(the non-merging case, after which the code re-clamps through the cursor
move) or leaves the cursor's grid column unchanged.  A merging insert that
changes the rendered width of the clusters before the cursor (for example
an emoji presentation selector) satisfies neither and breaks the
invariant, as the counterexample shows. -/
def insertOk (seg : List Char → List Cluster) (v : View) (ch : Char) : Prop :=
  v.buffer.line_len v.cursor_position.row <
    (v.buffer.insert seg v.cursor_position ch).line_len v.cursor_position.row ∨
  ((v.buffer.insert seg v.cursor_position ch).grid_position_of
      v.cursor_position).col =
    (v.buffer.grid_position_of v.cursor_position).col

instance (seg : List Char → List Cluster) (v : View) (ch : Char) :
    Decidable (insertOk seg v ch) := by
  unfold insertOk
  infer_instance

theorem cursorInView_insert (seg : List Char → List Cluster) (v : View) (ch : Char)
    (hw : 0 < v.size.width) (hh : 0 < v.size.height) (hin : cursorInView v)
    (hok : insertOk seg v ch) :
    cursorInView (v.insert seg ch) := by
  rw [insert_eq]
  by_cases hg : v.buffer.line_len v.cursor_position.row <
      (v.buffer.insert seg v.cursor_position ch).line_len v.cursor_position.row
  · rw [if_pos hg]
    exact cursorInView_set_flag _ _
      (cursorInView_move
        { v with buffer := v.buffer.insert seg v.cursor_position ch } .Right hw hh)
  · rw [if_neg hg]
    rcases hok with h | h
    · exact absurd h hg
    · refine cursorInView_set_flag _ _ ?_
      show v.scroll_offset.row ≤
          ((v.buffer.insert seg v.cursor_position ch).grid_position_of
            v.cursor_position).row ∧
        ((v.buffer.insert seg v.cursor_position ch).grid_position_of
            v.cursor_position).row < v.scroll_offset.row + v.size.height ∧
        v.scroll_offset.col ≤
          ((v.buffer.insert seg v.cursor_position ch).grid_position_of
            v.cursor_position).col ∧
        ((v.buffer.insert seg v.cursor_position ch).grid_position_of
            v.cursor_position).col < v.scroll_offset.col + v.size.width
      exact ⟨hin.1, hin.2.1, by rw [h]; exact hin.2.2.1, by rw [h]; exact hin.2.2.2⟩

theorem position_of_delete_self (l : Line) (i : Nat) :
    ((l.delete i).1).position_of i = l.position_of i := by
  unfold Line.delete
  split_ifs with h
  · show (⟨listEraseAt l.fragments i⟩ : Line).position_of i = _
    unfold Line.position_of
    rw [take_listEraseAt]
  · rfl

theorem grid_after_delete (b : Buffer) (p : Position) :
    (b.delete p).1.grid_position_of p = b.grid_position_of p := by
  rw [buffer_delete_eq]
  cases hg : listGetAt b.lines p.row with
  | none => rfl
  | some l =>
    show (⟨listModifyAt (fun _ => (l.delete p.col).1) p.row b.lines⟩ :
      Buffer).grid_position_of p = b.grid_position_of p
    unfold Buffer.grid_position_of
    rw [listGetAt_modifyAt_same _ hg, hg]
    show ({ col := (l.delete p.col).1.position_of p.col, row := p.row } : Position) =
      { col := l.position_of p.col, row := p.row }
    rw [position_of_delete_self]

theorem cursorInView_delete_right (v : View) (h : cursorInView v) :
    cursorInView v.delete_right := by
  have h1 : cursorInView { v with buffer := (v.buffer.delete v.cursor_position).1 } := by
    show v.scroll_offset.row ≤
        ((v.buffer.delete v.cursor_position).1.grid_position_of v.cursor_position).row ∧
      ((v.buffer.delete v.cursor_position).1.grid_position_of v.cursor_position).row <
        v.scroll_offset.row + v.size.height ∧
      v.scroll_offset.col ≤
        ((v.buffer.delete v.cursor_position).1.grid_position_of v.cursor_position).col ∧
      ((v.buffer.delete v.cursor_position).1.grid_position_of v.cursor_position).col <
        v.scroll_offset.col + v.size.width
    rw [grid_after_delete]
    exact h
  show cursorInView
    (if (v.buffer.delete v.cursor_position).2 then
      { ({ v with buffer := (v.buffer.delete v.cursor_position).1 } : View) with
          needs_redraw := true }
     else { v with buffer := (v.buffer.delete v.cursor_position).1 })
  split_ifs with hd
  · exact cursorInView_set_flag _ _ h1
  · exact h1

theorem cursorInView_delete_left (v : View)
    (hw : 0 < v.size.width) (hh : 0 < v.size.height) (h : cursorInView v) :
    cursorInView v.delete_left := by
  by_cases hc : v.cursor_position.col = 0
  · show cursorInView (if v.cursor_position.col = 0 then v else _)
    rw [if_pos hc]
    exact h
  · rw [delete_left_eq v hc]
    exact cursorInView_delete_right _ (cursorInView_move v .Left hw hh)

theorem insert_size (seg : List Char → List Cluster) (v : View) (ch : Char) :
    (v.insert seg ch).size = v.size := by
  rw [insert_eq]
  split_ifs <;> rfl

theorem delete_right_size (v : View) : v.delete_right.size = v.size := by
  show (if (v.buffer.delete v.cursor_position).2 then _ else
    ({ v with buffer := (v.buffer.delete v.cursor_position).1 } : View)).size = v.size
  split_ifs <;> rfl

theorem delete_left_size (v : View) : v.delete_left.size = v.size := by
  by_cases hc : v.cursor_position.col = 0
  · show (if v.cursor_position.col = 0 then v else _).size = v.size
    rw [if_pos hc]
  · rw [delete_left_eq v hc]
    rw [delete_right_size]
    rfl

/-- A command is benign for the invariant at the state where it executes:
resizes carry positive dimensions, inserts satisfy insertOk there, and
everything else is unrestricted. -/
def cmdOk (seg : List Char → List Cluster) (v : View) : EditorCommand → Prop
  | .Resize s => 0 < s.width ∧ 0 < s.height
  | .Insert ch => insertOk seg v ch
  | _ => True

instance (seg : List Char → List Cluster) (v : View) (c : EditorCommand) :
    Decidable (cmdOk seg v c) := by
  cases c <;> unfold cmdOk <;> infer_instance

theorem handle_step (seg : List Char → List Cluster) (v : View) (c : EditorCommand)
    (hin : cursorInView v) (hw : 0 < v.size.width) (hh : 0 < v.size.height)
    (hok : cmdOk seg v c) :
    cursorInView (v.handle_command seg c) ∧
    0 < (v.handle_command seg c).size.width ∧
    0 < (v.handle_command seg c).size.height := by
  cases c with
  | Move d => exact ⟨cursorInView_move v d hw hh, hw, hh⟩
  | Resize s =>
    rcases hok with ⟨hws, hhs⟩
    exact ⟨cursorInView_resize v s hws hhs, hws, hhs⟩
  | Insert ch =>
    refine ⟨cursorInView_insert seg v ch hw hh hin hok, ?_, ?_⟩
    · show 0 < (v.insert seg ch).size.width
      rw [insert_size]; exact hw
    · show 0 < (v.insert seg ch).size.height
      rw [insert_size]; exact hh
  | DeleteLeft =>
    refine ⟨cursorInView_delete_left v hw hh hin, ?_, ?_⟩
    · show 0 < v.delete_left.size.width
      rw [delete_left_size]; exact hw
    · show 0 < v.delete_left.size.height
      rw [delete_left_size]; exact hh
  | DeleteRight =>
    refine ⟨cursorInView_delete_right v hin, ?_, ?_⟩
    · show 0 < v.delete_right.size.width
      rw [delete_right_size]; exact hw
    · show 0 < v.delete_right.size.height
      rw [delete_right_size]; exact hh
  | Quit => exact ⟨hin, hw, hh⟩

/-- The emoji presentation selector U+FE0F, an Extend character that joins
the preceding character's grapheme cluster. -/
def vs16 : Char := Char.ofNat 0xFE0F

/-- The cloud character U+2601, intrinsic width 1 on its own. -/
def cloudChar : Char := Char.ofNat 0x2601

/-- A segmentation with the documented external behavior on the rebuilt
string cloud-plus-selector: the selector merges into the cloud's cluster
(UAX 29) and the emoji presentation sequence is two columns wide;
elsewhere one width-1 cluster per character. -/
def segCloud (cs : List Char) : List Cluster :=
  if cs = [cloudChar, vs16] then [⟨[cloudChar, vs16], 2⟩]
  else cs.map (fun c => ⟨[c], 1⟩)

/-- A 1-by-1 view over the single-cloud line with the cursor after the
cloud and the scroll window over that grid column: the invariant holds. -/
def c1MergeView : View :=
  ⟨⟨[Line.fromClusters [⟨[cloudChar], 1⟩]]⟩, true, ⟨1, 1⟩, ⟨1, 0⟩, ⟨1, 0⟩⟩

/-- C1 counterexample: the claim as stated quantifies over all command
sequences, and fails twice over.  Resizing a fresh 1-by-1 view to 0-by-0
leaves the window [dy, dy+0) empty, which cannot contain the cursor; and
with a positive viewport, inserting the emoji presentation selector after
the cloud merges into a wider cluster without growing the line, so the
program skips the cursor move and scroll re-clamp and the cursor's grid
column leaves the window. -/
theorem claim_C1_cex :
    (¬ cursorInView ((View.new ⟨1, 1⟩).handle_command asciiSeg (.Resize ⟨0, 0⟩))) ∧
    (cursorInView c1MergeView ∧
      0 < c1MergeView.size.width ∧ 0 < c1MergeView.size.height ∧
      ¬ cursorInView (c1MergeView.handle_command segCloud (.Insert vs16))) := by
  decide

/-- C1 (amended): starting from any view satisfying the invariant with a
positive viewport (View::new gives one), after every prefix of any command
sequence in which each resize keeps both dimensions positive and each
insert, at the state where it executes, either grows the addressed line's
cluster count or leaves the cursor's grid column unchanged, the cursor's
grid position lies inside the scroll window. -/
theorem claim_C1 (seg : List Char → List Cluster) (v : View)
    (cs : List EditorCommand) (n : Nat)
    (hin : cursorInView v) (hw : 0 < v.size.width) (hh : 0 < v.size.height)
    (hok : ∀ m (hm : m < cs.length),
      cmdOk seg (applyCommands seg v (cs.take m)) (cs.get ⟨m, hm⟩)) :
    cursorInView (applyCommands seg v (cs.take n)) := by
  induction cs generalizing v n with
  | nil =>
    rw [List.take_nil]
    exact hin
  | cons c cs ih =>
    cases n with
    | zero => exact hin
    | succ m =>
      have hc : cmdOk seg v c := hok 0 (Nat.succ_pos cs.length)
      have hstep := handle_step seg v c hin hw hh hc
      exact ih (v.handle_command seg c) m hstep.1 hstep.2.1 hstep.2.2
        (fun k hk => hok (k + 1) (Nat.succ_lt_succ hk))

/-- The command sequence exercised by the C1 witness: a move, an insert, a
positive resize and a left deletion. -/
def wCmds : List EditorCommand :=
  [.Move .Right, .Insert 'A', .Resize ⟨4, 2⟩, .DeleteLeft]

/-- C1 witness: a fresh 5-by-3 view keeps the invariant through the whole
mixed command sequence under the plain segmentation. -/
theorem claim_C1_witness :
    cursorInView (View.new ⟨5, 3⟩) ∧
    0 < (View.new ⟨5, 3⟩).size.width ∧ 0 < (View.new ⟨5, 3⟩).size.height ∧
    (∀ m (hm : m < wCmds.length),
      cmdOk asciiSeg (applyCommands asciiSeg (View.new ⟨5, 3⟩) (wCmds.take m))
        (wCmds.get ⟨m, hm⟩)) ∧
    cursorInView (applyCommands asciiSeg (View.new ⟨5, 3⟩) (wCmds.take 4)) :=
  ⟨by decide, by decide, by decide, by decide,
    claim_C1 asciiSeg (View.new ⟨5, 3⟩) wCmds 4
      (by decide) (by decide) (by decide) (by decide)⟩

end Hecto
